import Mathlib

/-!
Verification of the caddy-paseto token-candidate resolution and
claims-authorization pipeline.

The Go sources (`util.go`, `module.go`) are shallowly embedded below.
Strings are modelled as lists of characters (`GoStr`); Go slices/maps of
strings become Lean lists / association lists; the external PASETO
parse/validate collaborators (`xpaseto.ParseToken`, `Token.Validate`) are
abstracted as an `Oracle` record of pure functions, since the module only
observes their success/failure and the parsed token's raw claim map.
-/

/-- Go strings, modelled as lists of characters.  The Go code slices by
bytes; for the ASCII token material this pipeline handles, bytes and
characters coincide. -/
abbrev GoStr := List Char

/-- Whitespace predicate used by `strings.TrimSpace` (Go `unicode.IsSpace`),
restricted to the Latin-1 range; the higher Unicode space code points that
Go also trims never occur in the claims at issue and would be handled the
same way by every statement below. -/
def goIsSpace (c : Char) : Bool :=
  c == ' ' || c == '\t' || c == '\n' || c == '\r' ||
  c == Char.ofNat 11 || c == Char.ofNat 12 ||
  c == Char.ofNat 0x85 || c == Char.ofNat 0xA0

/-- Go `strings.TrimSpace`: drop leading and trailing whitespace. -/
def trimSpace (s : GoStr) : GoStr :=
  ((s.dropWhile goIsSpace).reverse.dropWhile goIsSpace).reverse

/-- Go `strings.ToLower`, character-wise.  Go lowercases full Unicode; it
agrees with `Char.toLower` on ASCII, which is all the `"bearer "` check
can match. -/
def toLowerStr (s : GoStr) : GoStr := s.map Char.toLower

/-- The literal `"bearer "` that `normToken` strips. -/
def bearerLit : GoStr := "bearer ".data

/-- Embeds `util.go normToken`: strip a case-insensitive `"bearer "` prefix if
present, then trim surrounding whitespace. -/
def normToken (token : GoStr) : GoStr :=
  if bearerLit.isPrefixOf (toLowerStr token) then
    trimSpace (token.drop bearerLit.length)
  else
    trimSpace token

/-- Embeds `util.go maskToken`: tokens of length at most 6 pass through; longer
tokens keep only the first and last `min(len/3, 16)` characters around an
ellipsis. -/
def maskToken (token : GoStr) : GoStr :=
  if token.length ≤ 6 then token
  else
    let mask := min (token.length / 3) 16
    token.take mask ++ "...".data ++ token.drop (token.length - mask)

/-- A dynamically-typed claim value as produced by JSON-decoding a PASETO
payload (`map[string]any` in Go): null, string, boolean, number (a Go
`float64`, every value of which is an exact rational), timestamp, array,
or nested object.  A `time.Time` claim is observed by this module only
through its UTC RFC 3339 (nanosecond) rendering, which the constructor
carries directly. -/
inductive ClaimValue where
  | null
  | str (s : GoStr)
  | boolean (b : Bool)
  | num (q : Rat)
  | time (rfc3339UTC : GoStr)
  | arr (elems : List ClaimValue)
  | obj (fields : List (GoStr × ClaimValue))

/-- A Go `map[string]any` claim mapping, as an association list (at most
one entry per key in every map the program builds). -/
abbrev GoMap := List (GoStr × ClaimValue)

/-- First-match association-list lookup: Go's `m[k]` two-result form. -/
def assocGet {β : Type} (k : GoStr) : List (GoStr × β) → Option β
  | [] => none
  | (k1, v) :: rest => if k1 = k then some v else assocGet k rest

/-- Rendering of a `float64` claim, `strconv.FormatFloat(f, 'f', -1, 64)`.
The shortest-round-trip decimal algorithm lives in the Go standard
library; no claim checked here observes the rendering's digits, only that
it is a fixed function of the value, so an exact sign/numerator/denominator
rendering stands in for it. -/
def formatGoFloat (q : Rat) : GoStr :=
  (if q < 0 then ['-'] else []) ++ Nat.toDigits 10 q.num.natAbs ++
    (if q.den = 1 then [] else '/' :: Nat.toDigits 10 q.den)

/-- Go `strings.Join(result, ",")`. -/
def goJoinComma : List GoStr → GoStr
  | [] => []
  | [s] => s
  | s :: rest => s ++ ',' :: goJoinComma rest

mutual

/-- Embeds `util.go stringify`: total conversion of a claim value to a string.
The Go function also has a `json.Number` case and a `fmt.Stringer` case;
neither is inhabited by the JSON-decoded claim universe modelled here
(`time.Time`, the one standard-library `Stringer` that can appear, is
matched by its own earlier case). -/
def stringify : ClaimValue → GoStr
  | .null => []
  | .str s => s
  | .boolean b => if b then "true".data else "false".data
  | .num q => formatGoFloat q
  | .time r => r
  | .arr elems => stringifySlice elems
  | .obj _ => []

/-- Embeds `util.go stringifySlice`: comma-join the stringifications. -/
def stringifySlice (slice : List ClaimValue) : GoStr :=
  goJoinComma (stringifyEach slice)

/-- The element-wise stringification underlying `stringifySlice`. -/
def stringifyEach : List ClaimValue → List GoStr
  | [] => []
  | v :: rest => stringify v :: stringifyEach rest

end

/-- Go `strings.Split(s, ".")`. -/
def goSplitDot : GoStr → List GoStr
  | [] => [[]]
  | '.' :: rest => [] :: goSplitDot rest
  | c :: rest =>
    match goSplitDot rest with
    | [] => [[c]]
    | p :: ps => (c :: p) :: ps

/-- Go `strings.Split(key, "->")` (the two characters of the separator
differ, so occurrences cannot overlap and leftmost-first splitting is
exactly this recursion). -/
def splitArrow : GoStr → List GoStr
  | [] => [[]]
  | '-' :: '>' :: rest => [] :: splitArrow rest
  | c :: rest =>
    match splitArrow rest with
    | [] => [[c]]
    | p :: ps => (c :: p) :: ps

/-- The loop of `util.go queryNested`: starting from the root mapping it
walks **every** index of `path` (Go: `for i := range len(path)`), requiring
the value at each segment — including the last — to be a nested mapping.
A missing key, a non-mapping value, or a JSON null fails the walk exactly
as the Go type assertion does. -/
def queryNestedWalk : GoMap → List GoStr → Option GoMap
  | object, [] => some object
  | object, k :: rest =>
    match assocGet k object with
    | some (.obj m) => queryNestedWalk m rest
    | _ => none

/-- Embeds `util.go queryNested`: walk the path (all of it, see
`queryNestedWalk`), then read the last segment's key from the mapping the
walk ended on; a present-but-null entry is returned as found (Go returns
`object[lastKey], true`, where a missing `lastKey` yields nil).  The Go
function indexes `path[len(path)-1]` and so would panic on an empty path;
its only caller always passes a non-empty split, and that case is
unreachable here too. -/
def queryNested (claims : GoMap) (path : List GoStr) : Option ClaimValue :=
  match queryNestedWalk claims path, path.getLast? with
  | some object, some lastKey => some ((assocGet lastKey object).getD .null)
  | _, _ => none

/-- Go map insertion `m[k] = v` on an association list: replace the entry
if the key is present, else append. -/
def mapSet : List (GoStr × GoStr) → GoStr → GoStr → List (GoStr × GoStr)
  | [], k, v => [(k, v)]
  | (k1, v1) :: rest, k, v =>
    if k1 = k then (k, v) :: rest else (k1, v1) :: mapSet rest k v

/-- The body of the `getUserMetadata` loop over the claim→placeholder
entries (Go iterates its map in unspecified order; the association-list
order is one determinization, and every claim proved below is about a
single run of it). -/
def metadataFold (claims : GoMap) : List (GoStr × GoStr) → List (GoStr × GoStr) →
    List (GoStr × GoStr)
  | [], md => md
  | (claimName, placeholder) :: rest, md =>
    let looked :=
      match assocGet claimName claims with
      | some cv => some cv
      | none =>
        if '.' ∈ claimName then queryNested claims (goSplitDot claimName) else none
    let md' :=
      match looked with
      | none => mapSet md placeholder []
      | some cv => mapSet md placeholder (stringify cv)
    metadataFold claims rest md'

/-- Embeds `util.go getUserMetadata`: nil for an empty placeholder map, else the
placeholder→string map built entry by entry (exact-key lookup first, then
the dotted nested query; a miss stores the empty string). -/
def getUserMetadata (claims : GoMap) (placeholdersMap : List (GoStr × GoStr)) :
    Option (List (GoStr × GoStr)) :=
  if placeholdersMap.length = 0 then none
  else some (metadataFold claims placeholdersMap [])

/-- Embeds `util.go getUserID`: first claim name in order whose value is present
with string or `float64` kind is returned with its rendering; any other
kind (or absence) falls through to the next name; exhaustion returns
`("", "")`. -/
def getUserID (claims : GoMap) : List GoStr → GoStr × GoStr
  | [] => ([], [])
  | name :: rest =>
    match assocGet name claims with
    | some (.str v) => (name, v)
    | some (.num v) => (name, formatGoFloat v)
    | _ => getUserID claims rest

/-- The configuration errors of `util.go parseMetaClaim`, each carrying
the offending key (Go embeds it in the error message via `%q`). -/
inductive MetaClaimError where
  | tooManyDelims (key : GoStr)
  | emptyClaim (key : GoStr)
  | emptyPlaceholder (key : GoStr)
deriving DecidableEq

/-- The trailing checks of `parseMetaClaim`: empty claim is reported
before empty placeholder, as in the Go function. -/
def mkMetaClaim (key claim placeholder : GoStr) :
    Except MetaClaimError (GoStr × GoStr) :=
  if claim = [] then .error (.emptyClaim key)
  else if placeholder = [] then .error (.emptyPlaceholder key)
  else .ok (claim, placeholder)

/-- Embeds `util.go parseMetaClaim`: split on `"->"`; one part means the
placeholder defaults to the (trimmed) claim, two parts are trimmed
claim/placeholder, more parts are a configuration error. -/
def parseMetaClaim (key : GoStr) : Except MetaClaimError (GoStr × GoStr) :=
  match splitArrow key with
  | [p0] => mkMetaClaim key (trimSpace p0) (trimSpace p0)
  | [p0, p1] => mkMetaClaim key (trimSpace p0) (trimSpace p1)
  | _ => .error (.tooManyDelims key)

/-- The carriers of one HTTP request that `Authenticate` reads: query
parameters, headers, and cookies, each as name/value pairs.  Go's
`Query().Get`, `Header.Get` and `Cookie` all return the first value for a
name (header names are assumed already in their canonical form). -/
structure Request where
  query : List (GoStr × GoStr)
  headers : List (GoStr × GoStr)
  cookies : List (GoStr × GoStr)

/-- The `PasetoAuth` configuration fields that `Authenticate` reads.  The
key / purpose / version / skew-tolerance fields only feed the external
parser and validator and so live behind the `Oracle` abstraction, as do
`AllowAudiences` / `AllowIssuers`, which are composed into the rule list
handed to the external `Validate`. -/
structure Config where
  fromQuery : List GoStr
  fromHeader : List GoStr
  fromCookies : List GoStr
  userClaims : List GoStr
  metaClaims : List (GoStr × GoStr)
  allowUsers : List GoStr

/-- The external PASETO collaborators, abstracted: `parse` is
`xpaseto.ParseToken` (returning the parsed token's raw claim map, the only
observation the module makes of a token), and `validate` is
`Token.Validate(time.Now, skew, rules...)` with the audience/issuer rules
already composed; `true` means a nil error.  Both are fixed for the one
`Authenticate` invocation under consideration. -/
structure Oracle where
  parse : GoStr → Option GoMap
  validate : GoMap → Bool

/-- The `caddyauth.User` value: identity and optional metadata map (`nil` in Go is
`none`). -/
structure User where
  id : GoStr
  metadata : Option (List (GoStr × GoStr))
deriving DecidableEq

/-- Embeds `util.go getTokensFromHeader`: the configured names in order, keeping
each name's (first) non-empty header value. -/
def getTokensFromHeader (r : Request) (names : List GoStr) : List GoStr :=
  names.filterMap fun key =>
    match assocGet key r.headers with
    | some v => if v = [] then none else some v
    | none => none

/-- Embeds `util.go getTokensFromQuery`: likewise over the query parameters. -/
def getTokensFromQuery (r : Request) (names : List GoStr) : List GoStr :=
  names.filterMap fun key =>
    match assocGet key r.query with
    | some v => if v = [] then none else some v
    | none => none

/-- Embeds `util.go getTokensFromCookies`: likewise over the cookies (`r.Cookie`
errors on a missing cookie, which skips the name). -/
def getTokensFromCookies (r : Request) (names : List GoStr) : List GoStr :=
  names.filterMap fun key =>
    match assocGet key r.cookies with
    | some v => if v = [] then none else some v
    | none => none

/-- The literal `"Authorization"` header name. -/
def authorizationHeader : GoStr := "Authorization".data

/-- The candidate collection at the top of `Authenticate` (module.go):
query values, then configured headers, then cookies, then the
`Authorization` header. -/
def candidates (cfg : Config) (r : Request) : List GoStr :=
  getTokensFromQuery r cfg.fromQuery
    ++ getTokensFromHeader r cfg.fromHeader
    ++ getTokensFromCookies r cfg.fromCookies
    ++ getTokensFromHeader r [authorizationHeader]

/-- The per-candidate check chain in the body of the `Authenticate` loop:
parse, validate, resolve the user id, and apply the `AllowUsers` list;
`none` is the Go `continue`, `some` the accepted user (with metadata). -/
def checkCandidate (cfg : Config) (o : Oracle) (tokenStr : GoStr) : Option User :=
  match o.parse tokenStr with
  | none => none
  | some token =>
    if o.validate token then
      let uid := (getUserID token cfg.userClaims).2
      if uid = [] then none
      else if cfg.allowUsers ≠ [] ∧ uid ∉ cfg.allowUsers then none
      else some ⟨uid, getUserMetadata token cfg.metaClaims⟩
    else none

/-- One run of the `Authenticate` candidate loop: the result, the
normalized token strings handed to the external parser in call order (a
ghost log of the `xpaseto.ParseToken` invocations), and the final
`checked` set. -/
structure LoopOut where
  result : Option User
  parsed : List GoStr
  checked : List GoStr
deriving DecidableEq

/-- The `Authenticate` candidate loop (module.go): normalize, skip
already-checked strings, otherwise parse/validate/resolve via
`checkCandidate`, recording the string as checked, and stop at the first
success. -/
def authLoop (cfg : Config) (o : Oracle) : List GoStr → List GoStr → LoopOut
  | [], chk => ⟨none, [], chk⟩
  | c :: rest, chk =>
    let tokenStr := normToken c
    if tokenStr ∈ chk then authLoop cfg o rest chk
    else
      match checkCandidate cfg o tokenStr with
      | some u => ⟨some u, [tokenStr], tokenStr :: chk⟩
      | none =>
        let out := authLoop cfg o rest (tokenStr :: chk)
        ⟨out.result, tokenStr :: out.parsed, out.checked⟩

/-- Embeds `module.go Authenticate`: run the loop over the collected candidates;
a success returns the user with `true` and a nil error, exhaustion returns
the zero `caddyauth.User` with `false` and a nil error. -/
def authenticate (cfg : Config) (o : Oracle) (r : Request) :
    User × Bool × Option GoStr :=
  match (authLoop cfg o (candidates cfg r) []).result with
  | some user => (user, true, none)
  | none => (⟨[], none⟩, false, none)

/-- The parser-invocation log of one `Authenticate` run. -/
def authParsed (cfg : Config) (o : Oracle) (r : Request) : List GoStr :=
  (authLoop cfg o (candidates cfg r) []).parsed

/-- The spec-side identity resolver (§4.4, as amended): the first
configured claim name whose claim is present with string or number kind,
together with that claim's value.  Unlike the original spec sentence, a
present string claim qualifies even when its value is the empty string. -/
def firstIdentityClaim (claims : GoMap) : List GoStr → Option (GoStr × ClaimValue)
  | [] => none
  | name :: rest =>
    match assocGet name claims with
    | some (.str s) => some (name, .str s)
    | some (.num q) => some (name, .num q)
    | _ => firstIdentityClaim claims rest

/-- Rendering of an identity value: a string claim as itself, a number
claim as its `strconv.FormatFloat` decimal form. -/
def renderIdentityValue : ClaimValue → GoStr
  | .str s => s
  | .num q => formatGoFloat q
  | _ => []

/-- The nested-metadata example from the module documentation: claim set
`{"user_info": {"role": "admin"}}`. -/
def nestedDemoClaims : GoMap :=
  [("user_info".data, .obj [("role".data, .str "admin".data)])]

/-- A parsed token whose only claim is `sub = "alice"`. -/
def demoSub : GoMap := [("sub".data, .str "alice".data)]

/-- A demonstration oracle: only the string `"good"` parses (to
`demoSub`), and validation always succeeds. -/
def demoOracle : Oracle :=
  ⟨fun t => if t = "good".data then some demoSub else none, fun _ => true⟩

/-- A demonstration configuration: tokens from query parameter `token`
and cookie `auth`, identity from `sub`, no metadata, no user
allow-list. -/
def demoCfg : Config :=
  ⟨["token".data], [], ["auth".data], ["sub".data], [], []⟩

/-- A request carrying a bad token in the query, the good token in the
cookie, and a further token in the `Authorization` header. -/
def demoReq : Request :=
  ⟨[("token".data, "bad".data)], [("Authorization".data, "Bearer evil".data)],
    [("auth".data, "good".data)]⟩

/-- A request with no token anywhere. -/
def demoReqEmpty : Request := ⟨[], [], []⟩

/-- A request whose only token arrives in a query parameter with a
`"Bearer "` prefix. -/
def bearerDemoReq : Request := ⟨[("token".data, "Bearer abc".data)], [], []⟩

/-- A configuration whose user allow-list is `["Bob"]`. -/
def allowDemoCfg : Config := ⟨[], [], [], ["sub".data], [], ["Bob".data]⟩

/-- A parsed token whose identity claim resolves to `"Alice"`. -/
def allowDemoTok : GoMap := [("sub".data, .str "Alice".data)]

/-- An oracle under which the string `"tok"` parses to `allowDemoTok` and
validation always succeeds. -/
def allowDemoOracle : Oracle :=
  ⟨fun t => if t = "tok".data then some allowDemoTok else none, fun _ => true⟩

/-- Splitting the candidate loop at a failing prefix: if the loop exhausts
`p` without success, running it on `p ++ q` is running it on `q` from the
prefix's final `checked` set, with the parser-call logs concatenated. -/
theorem authLoop_append (cfg : Config) (o : Oracle) (p q : List GoStr)
    (chk : List GoStr) (h : (authLoop cfg o p chk).result = none) :
    authLoop cfg o (p ++ q) chk =
      ⟨(authLoop cfg o q (authLoop cfg o p chk).checked).result,
        (authLoop cfg o p chk).parsed
          ++ (authLoop cfg o q (authLoop cfg o p chk).checked).parsed,
        (authLoop cfg o q (authLoop cfg o p chk).checked).checked⟩ := by
  induction p generalizing chk with
  | nil => simp [authLoop]
  | cons c rest ih =>
    simp only [List.cons_append, authLoop] at h ⊢
    by_cases hm : normToken c ∈ chk
    · simpa [hm] using ih chk (by simpa [hm] using h)
    · simp only [hm, if_false] at h ⊢
      cases hc : checkCandidate cfg o (normToken c) with
      | some u => simp [hc] at h
      | none =>
        simp only [hc] at h ⊢
        simp only [List.append_eq]
        rw [ih (normToken c :: chk) (by simpa using h)]
        simp

/-- Every string in the `checked` set of a loop run that found no valid
candidate either was checked before the run started or fails the
per-candidate checks. -/
theorem authLoop_none_checked (cfg : Config) (o : Oracle) (cs : List GoStr)
    (chk : List GoStr) (h : (authLoop cfg o cs chk).result = none) :
    ∀ t ∈ (authLoop cfg o cs chk).checked,
      t ∈ chk ∨ checkCandidate cfg o t = none := by
  induction cs generalizing chk with
  | nil => intro t ht; exact .inl (by simpa [authLoop] using ht)
  | cons c rest ih =>
    intro t ht
    simp only [authLoop] at h ht
    by_cases hm : normToken c ∈ chk
    · simp only [hm, if_true] at h ht
      exact ih chk h t ht
    · simp only [hm, if_false] at h ht
      cases hc : checkCandidate cfg o (normToken c) with
      | some u => simp [hc] at h
      | none =>
        simp only [hc] at h ht
        rcases ih (normToken c :: chk) h t ht with hmem | hfail
        · rcases List.mem_cons.mp hmem with rfl | hmem
          · exact .inr hc
          · exact .inl hmem
        · exact .inr hfail

/-- The parser-call log of one loop run repeats no string and is disjoint
from the initial `checked` set. -/
theorem authLoop_parsed_nodup (cfg : Config) (o : Oracle) (cs : List GoStr)
    (chk : List GoStr) :
    (authLoop cfg o cs chk).parsed.Nodup ∧
      ∀ t ∈ (authLoop cfg o cs chk).parsed, t ∉ chk := by
  induction cs generalizing chk with
  | nil => simp [authLoop]
  | cons c rest ih =>
    simp only [authLoop]
    by_cases hm : normToken c ∈ chk
    · simpa [hm] using ih chk
    · simp only [hm, if_false]
      cases hc : checkCandidate cfg o (normToken c) with
      | some u => simpa using hm
      | none =>
        rcases ih (normToken c :: chk) with ⟨hnd, hdisj⟩
        refine ⟨List.nodup_cons.mpr ⟨fun hmem => ?_, hnd⟩, ?_⟩
        · exact hdisj _ hmem (List.mem_cons_self _ _)
        · intro t ht
          rcases List.mem_cons.mp ht with rfl | ht
          · exact hm
          · exact fun htc => hdisj t ht (List.mem_cons_of_mem _ htc)

/-- Every string the loop hands to the parser is the normalized form of
one of the candidates it was given. -/
theorem authLoop_parsed_mem (cfg : Config) (o : Oracle) (cs : List GoStr)
    (chk : List GoStr) :
    ∀ t ∈ (authLoop cfg o cs chk).parsed, ∃ c ∈ cs, t = normToken c := by
  induction cs generalizing chk with
  | nil => simp [authLoop]
  | cons c rest ih =>
    intro t ht
    simp only [authLoop] at ht
    by_cases hm : normToken c ∈ chk
    · simp only [hm, if_true] at ht
      rcases ih chk t ht with ⟨c0, hc0, rfl⟩
      exact ⟨c0, List.mem_cons_of_mem _ hc0, rfl⟩
    · simp only [hm, if_false] at ht
      cases hc : checkCandidate cfg o (normToken c) with
      | some u =>
        simp only [hc] at ht
        rcases List.mem_singleton.mp ht with rfl
        exact ⟨c, List.mem_cons_self _ _, rfl⟩
      | none =>
        simp only [hc] at ht
        rcases List.mem_cons.mp ht with rfl | ht
        · exact ⟨c, List.mem_cons_self _ _, rfl⟩
        · rcases ih (normToken c :: chk) t ht with ⟨c0, hc0, rfl⟩
          exact ⟨c0, List.mem_cons_of_mem _ hc0, rfl⟩

/-- A list is `isPrefixOf` itself followed by anything. -/
theorem isPrefixOf_append_self {α : Type} [BEq α] [LawfulBEq α] (l t : List α) :
    l.isPrefixOf (l ++ t) = true := by
  induction l with
  | nil => simp [List.isPrefixOf]
  | cons a l ih => simp [List.isPrefixOf, ih]

/-- C1 (code bug in `queryNested`): the loop walks *every* index of the
path — Go's `for i := range len(path)` — so the terminal value `"admin"`
fails the nested-mapping type assertion and the whole path is reported
missing; `getUserMetadata` on claim set `{"user_info":{"role":"admin"}}`
with meta-claim `user_info.role -> role` therefore yields metadata
`{"role": ""}`, where the claim (and the module's own documentation and
README) promise `{"role": "admin"}`. -/
theorem queryNested_last_segment_bug :
    queryNested nestedDemoClaims ["user_info".data, "role".data] = none
      ∧ getUserMetadata nestedDemoClaims [("user_info.role".data, "role".data)]
          = some [("role".data, [])] :=
  ⟨rfl, rfl⟩

/-- C2 counterexample: with claim set `{"uid": "", "username": "eva"}` and
candidate order `["uid", "username"]` the resolver stops at the
present-but-empty `"uid"` claim instead of returning the first claim name
whose value stringifies to a non-empty string (`"username"`/`"eva"`). -/
theorem getUserID_empty_string_counterexample :
    getUserID [("uid".data, .str []), ("username".data, .str "eva".data)]
        ["uid".data, "username".data] = ("uid".data, [])
      ∧ getUserID [("uid".data, .str []), ("username".data, .str "eva".data)]
          ["uid".data, "username".data] ≠ ("username".data, "eva".data) :=
  ⟨by decide, by decide⟩

/-- C2 (amended): the resolver returns the first claim name (with its
stringified value) whose claim is present with string or number kind —
including a present string claim whose value is empty — and signals "no
identity" (`("", "")`) when no such claim exists; in particular claim set
`{"username": "eva"}` with `user_claims = ["uid", "username"]` resolves
identity `"eva"`. -/
theorem getUserID_first_identity (claims : GoMap) (names : List GoStr) :
    getUserID claims names =
        (match firstIdentityClaim claims names with
         | some (name, v) => (name, renderIdentityValue v)
         | none => ([], []))
      ∧ getUserID [("username".data, .str "eva".data)] ["uid".data, "username".data]
          = ("username".data, "eva".data) := by
  refine ⟨?_, by decide⟩
  induction names with
  | nil => rfl
  | cons name rest ih =>
    simp only [getUserID, firstIdentityClaim]
    cases h : assocGet name claims with
    | none => simpa using ih
    | some v => cases v <;> simp [renderIdentityValue, ih]

/-- C3: candidates are collected with the fixed priority query > header >
cookie > Authorization, within each source in configured name order with
all sources contributing; the pipeline accepts the first candidate that
passes parsing, validation, identity resolution and the user allow-list,
and no candidate after it is ever handed to the parser. -/
theorem authenticate_priority_short_circuit (cfg : Config) (o : Oracle)
    (r : Request) (p s : List GoStr) (c : GoStr) (u : User)
    (hsplit : candidates cfg r = p ++ c :: s)
    (hprev : (authLoop cfg o p []).result = none)
    (hpass : checkCandidate cfg o (normToken c) = some u) :
    candidates cfg r =
        getTokensFromQuery r cfg.fromQuery ++ getTokensFromHeader r cfg.fromHeader
          ++ getTokensFromCookies r cfg.fromCookies
          ++ getTokensFromHeader r [authorizationHeader]
      ∧ authenticate cfg o r = (u, true, none)
      ∧ authParsed cfg o r = (authLoop cfg o p []).parsed ++ [normToken c] := by
  have hnew : normToken c ∉ (authLoop cfg o p []).checked := by
    intro hmem
    rcases authLoop_none_checked cfg o p [] hprev _ hmem with h0 | h0
    · simp at h0
    · rw [h0] at hpass; cases hpass
  have hsplitLoop := authLoop_append cfg o p (c :: s) [] hprev
  have hq : authLoop cfg o (c :: s) (authLoop cfg o p []).checked =
      ⟨some u, [normToken c], normToken c :: (authLoop cfg o p []).checked⟩ := by
    simp [authLoop, hnew, hpass]
  refine ⟨rfl, ?_, ?_⟩
  · simp [authenticate, hsplit, hsplitLoop, hq]
  · simp [authParsed, hsplit, hsplitLoop, hq]

/-- Witness for `authenticate_priority_short_circuit`: the bad query
token fails, the good cookie token is accepted, and the `Authorization`
candidate after it is never parsed. -/
theorem authenticate_priority_short_circuit_witness :
    ((authLoop demoCfg demoOracle ["bad".data] []).result = none
        ∧ checkCandidate demoCfg demoOracle (normToken "good".data)
            = some ⟨"alice".data, none⟩)
      ∧ authenticate demoCfg demoOracle demoReq = (⟨"alice".data, none⟩, true, none)
      ∧ authParsed demoCfg demoOracle demoReq
          = (authLoop demoCfg demoOracle ["bad".data] []).parsed
              ++ [normToken "good".data] :=
  ⟨⟨by decide, by decide⟩,
    (authenticate_priority_short_circuit demoCfg demoOracle demoReq ["bad".data]
        ["Bearer evil".data] "good".data ⟨"alice".data, none⟩ (by decide) (by decide)
        (by decide)).2⟩

/-- C4: within one `Authenticate` invocation the external parser — and
hence the validator — receives each distinct normalized candidate string
at most once, and a candidate whose normalized form is already in the
checked set is skipped without any further processing. -/
theorem authenticate_dedup (cfg : Config) (o : Oracle) (r : Request) :
    (authParsed cfg o r).Nodup ∧
      ∀ c rest chk, normToken c ∈ chk →
        authLoop cfg o (c :: rest) chk = authLoop cfg o rest chk := by
  refine ⟨(authLoop_parsed_nodup cfg o _ _).1, ?_⟩
  intro c rest chk hmem
  simp [authLoop, hmem]

/-- Witness for `authenticate_dedup`: a candidate equal to an
already-checked string leaves the loop unchanged. -/
theorem authenticate_dedup_witness :
    normToken "tok".data ∈ ["tok".data] ∧
      authLoop demoCfg demoOracle ["tok".data] ["tok".data]
        = authLoop demoCfg demoOracle [] ["tok".data] :=
  ⟨by decide,
    (authenticate_dedup demoCfg demoOracle demoReq).2 "tok".data [] ["tok".data]
      (by decide)⟩

/-- C5: a failing candidate only advances the loop, and once every
candidate is exhausted `Authenticate` returns the zero user,
`authenticated = false` and a nil error; the error component is nil on
every path. -/
theorem authenticate_failure_negative (cfg : Config) (o : Oracle) (r : Request) :
    (authenticate cfg o r).2.2 = none ∧
      ((authLoop cfg o (candidates cfg r) []).result = none →
        authenticate cfg o r = (⟨[], none⟩, false, none)) ∧
      ∀ c rest chk, normToken c ∉ chk → checkCandidate cfg o (normToken c) = none →
        (authLoop cfg o (c :: rest) chk).result
          = (authLoop cfg o rest (normToken c :: chk)).result := by
  refine ⟨?_, ?_, ?_⟩
  · rw [authenticate]
    cases (authLoop cfg o (candidates cfg r) []).result <;> rfl
  · intro h; simp [authenticate, h]
  · intro c rest chk hnm hcc; simp [authLoop, hnm, hcc]

/-- Witness for `authenticate_failure_negative`: a request with no tokens
is merely not authenticated, and an unparseable candidate just moves the
loop on. -/
theorem authenticate_failure_negative_witness :
    ((authLoop demoCfg demoOracle (candidates demoCfg demoReqEmpty) []).result = none
        ∧ authenticate demoCfg demoOracle demoReqEmpty = (⟨[], none⟩, false, none))
      ∧ checkCandidate demoCfg demoOracle (normToken "bad".data) = none
      ∧ (authLoop demoCfg demoOracle ["bad".data] []).result
          = (authLoop demoCfg demoOracle [] [normToken "bad".data]).result :=
  ⟨⟨by decide,
      (authenticate_failure_negative demoCfg demoOracle demoReqEmpty).2.1 (by decide)⟩,
    by decide,
    (authenticate_failure_negative demoCfg demoOracle demoReqEmpty).2.2 "bad".data []
      [] (by decide) (by decide)⟩

/-- C6: a candidate that parses, validates, and resolves a non-empty
identity is still skipped — the loop continuing with the remaining
candidates — whenever the configured `AllowUsers` list is non-empty and
the identity is not in it. -/
theorem allowUsers_rejects (cfg : Config) (o : Oracle) (c : GoStr)
    (rest chk : List GoStr) (token : GoMap)
    (hne : cfg.allowUsers ≠ [])
    (hparse : o.parse (normToken c) = some token)
    (hval : o.validate token = true)
    (huid : (getUserID token cfg.userClaims).2 ≠ [])
    (hmem : (getUserID token cfg.userClaims).2 ∉ cfg.allowUsers)
    (hnew : normToken c ∉ chk) :
    checkCandidate cfg o (normToken c) = none ∧
      authLoop cfg o (c :: rest) chk =
        ⟨(authLoop cfg o rest (normToken c :: chk)).result,
          normToken c :: (authLoop cfg o rest (normToken c :: chk)).parsed,
          (authLoop cfg o rest (normToken c :: chk)).checked⟩ := by
  have hcc : checkCandidate cfg o (normToken c) = none := by
    simp [checkCandidate, hparse, hval, huid, hmem, hne]
  exact ⟨hcc, by simp [authLoop, hnew, hcc]⟩

/-- Witness for `allowUsers_rejects`: `allow_users = ["Bob"]` rejects an
otherwise valid token whose identity resolves to `"Alice"`. -/
theorem allowUsers_rejects_witness :
    (allowDemoCfg.allowUsers ≠ [] ∧
        allowDemoOracle.parse (normToken "tok".data) = some allowDemoTok ∧
        allowDemoOracle.validate allowDemoTok = true ∧
        (getUserID allowDemoTok allowDemoCfg.userClaims).2 ≠ [] ∧
        (getUserID allowDemoTok allowDemoCfg.userClaims).2 ∉ allowDemoCfg.allowUsers)
      ∧ checkCandidate allowDemoCfg allowDemoOracle (normToken "tok".data) = none :=
  ⟨⟨by decide, rfl, by decide, by decide, by decide⟩,
    (allowUsers_rejects allowDemoCfg allowDemoOracle "tok".data [] [] allowDemoTok
        (by decide) rfl (by decide) (by decide) (by decide) (by decide)).1⟩

/-- C7: `maskToken` returns the whole token when its length is at most 6;
otherwise it returns the first `n` characters, an ellipsis, and the last
`n` characters of the token, with `n = min(length/3, 16)` (integer
division), so only a bounded prefix and suffix of a long token reach the
diagnostic record. -/
theorem maskToken_masks (token : GoStr) :
    (token.length ≤ 6 → maskToken token = token) ∧
      (6 < token.length →
        maskToken token =
            token.take (min (token.length / 3) 16) ++ "...".data
              ++ token.drop (token.length - min (token.length / 3) 16)
          ∧ (token.take (min (token.length / 3) 16)).length
              = min (token.length / 3) 16
          ∧ (token.drop (token.length - min (token.length / 3) 16)).length
              = min (token.length / 3) 16
          ∧ token.take (min (token.length / 3) 16) <+: token
          ∧ token.drop (token.length - min (token.length / 3) 16) <:+ token) := by
  constructor
  · intro h; simp [maskToken, h]
  · intro h
    have hle : min (token.length / 3) 16 ≤ token.length :=
      le_trans (min_le_left _ _) (Nat.div_le_self _ _)
    refine ⟨by simp [maskToken, Nat.not_le.mpr h], ?_, ?_, ?_, ?_⟩
    · rw [List.length_take]; exact Nat.min_eq_left hle
    · rw [List.length_drop]; omega
    · exact ⟨token.drop (min (token.length / 3) 16), List.take_append_drop _ _⟩
    · exact ⟨token.take (token.length - min (token.length / 3) 16),
        List.take_append_drop _ _⟩

/-- Witness for `maskToken_masks`: the six-character token `"abc123"`
passes unmasked; the ten-character token `"abcdefghij"` is masked with
`n = 3`. -/
theorem maskToken_masks_witness :
    (("abc123".data).length ≤ 6 ∧ maskToken "abc123".data = "abc123".data)
      ∧ (6 < ("abcdefghij".data).length
        ∧ maskToken "abcdefghij".data =
            ("abcdefghij".data).take (min (("abcdefghij".data).length / 3) 16)
              ++ "...".data
              ++ ("abcdefghij".data).drop
                  (("abcdefghij".data).length
                    - min (("abcdefghij".data).length / 3) 16)) :=
  ⟨⟨by decide, (maskToken_masks "abc123".data).1 (by decide)⟩,
    ⟨by decide, ((maskToken_masks "abcdefghij".data).2 (by decide)).1⟩⟩

/-- C8: normalization strips one leading case-insensitive `"bearer "`
prefix and trims surrounding whitespace, so prepending any spelling `bp`
of `"Bearer "` to a token `t` that does not itself carry the prefix gives
the same candidate string as `t` alone, namely `trim(t)`. -/
theorem normToken_bearer (bp t : GoStr)
    (hbp : toLowerStr bp = bearerLit)
    (ht : bearerLit.isPrefixOf (toLowerStr t) = false) :
    normToken (bp ++ t) = normToken t ∧ normToken t = trimSpace t := by
  have hlen : bp.length = bearerLit.length := by
    have h0 := congrArg List.length hbp
    simpa [toLowerStr] using h0
  have hpre : bearerLit.isPrefixOf (toLowerStr (bp ++ t)) = true := by
    rw [toLowerStr, List.map_append, ← toLowerStr, ← toLowerStr, hbp]
    exact isPrefixOf_append_self _ _
  have h2 : normToken t = trimSpace t := by
    simp [normToken, ht]
  refine ⟨?_, h2⟩
  have h1 : normToken (bp ++ t) = trimSpace ((bp ++ t).drop bearerLit.length) := by
    simp [normToken, hpre]
  rw [h1, ← hlen, List.drop_left, h2]

/-- Witness for `normToken_bearer` at the mixed-case prefix `"BeArEr "`
and token `" tok "`. -/
theorem normToken_bearer_witness :
    (toLowerStr "BeArEr ".data = bearerLit
        ∧ bearerLit.isPrefixOf (toLowerStr " tok ".data) = false)
      ∧ normToken ("BeArEr ".data ++ " tok ".data) = normToken " tok ".data
      ∧ normToken " tok ".data = trimSpace " tok ".data :=
  ⟨⟨by decide, by decide⟩,
    normToken_bearer "BeArEr ".data " tok ".data (by decide) (by decide)⟩

/-- C9: `parseMetaClaim` fails, with an error naming the offending key,
exactly when the key has more than one `"->"` separator or a side trims
to the empty string; with no separator the placeholder defaults to the
trimmed claim name; with one separator the claim and placeholder are the
trimmed sides. -/
theorem parseMetaClaim_spec (key : GoStr) :
    (2 < (splitArrow key).length →
        parseMetaClaim key = .error (.tooManyDelims key))
      ∧ (∀ p0, splitArrow key = [p0] → parseMetaClaim key =
          if trimSpace p0 = [] then .error (.emptyClaim key)
          else .ok (trimSpace p0, trimSpace p0))
      ∧ (∀ p0 p1, splitArrow key = [p0, p1] → parseMetaClaim key =
          if trimSpace p0 = [] then .error (.emptyClaim key)
          else if trimSpace p1 = [] then .error (.emptyPlaceholder key)
          else .ok (trimSpace p0, trimSpace p1))
      ∧ ((∃ e, parseMetaClaim key = .error e) ↔
          2 < (splitArrow key).length
            ∨ trimSpace ((splitArrow key).headD []) = []
            ∨ trimSpace ((splitArrow key).getLastD []) = []) := by
  refine ⟨?_, ?_, ?_, ?_⟩
  · intro h
    match hs : splitArrow key with
    | [] => simp [hs] at h
    | [p0] => simp [hs] at h
    | [p0, p1] => simp [hs] at h
    | p0 :: p1 :: p2 :: rest => simp [parseMetaClaim, hs]
  · intro p0 hs
    simp only [parseMetaClaim, hs, mkMetaClaim]
    by_cases h0 : trimSpace p0 = [] <;> simp [h0]
  · intro p0 p1 hs
    simp only [parseMetaClaim, hs, mkMetaClaim]
  · match hs : splitArrow key with
    | [] =>
      constructor
      · intro _
        refine .inr (.inl ?_)
        simp [hs]
        rfl
      · intro _
        exact ⟨.tooManyDelims key, by simp [parseMetaClaim, hs]⟩
    | [p0] =>
      by_cases h0 : trimSpace p0 = [] <;>
        simp [parseMetaClaim, hs, mkMetaClaim, h0]
    | [p0, p1] =>
      by_cases h0 : trimSpace p0 = [] <;> by_cases h1 : trimSpace p1 = [] <;>
        simp [parseMetaClaim, hs, mkMetaClaim, h0, h1, List.getLastD]
    | p0 :: p1 :: p2 :: rest =>
      constructor
      · intro _
        refine .inl ?_
        simp [hs]
      · intro _
        exact ⟨.tooManyDelims key, by simp [parseMetaClaim, hs]⟩

/-- Witness for `parseMetaClaim_spec`: `"a->b->c"` is a configuration
error naming the key; `"IsAdmin -> is_admin"` parses to its trimmed
sides; `"group"` defaults the placeholder to the claim. -/
theorem parseMetaClaim_spec_witness :
    (2 < (splitArrow "a->b->c".data).length
        ∧ parseMetaClaim "a->b->c".data = .error (.tooManyDelims "a->b->c".data))
      ∧ parseMetaClaim "IsAdmin -> is_admin".data
          = .ok ("IsAdmin".data, "is_admin".data)
      ∧ parseMetaClaim "group".data = .ok ("group".data, "group".data) :=
  ⟨⟨by decide, (parseMetaClaim_spec "a->b->c".data).1 (by decide)⟩, rfl, rfl⟩

/-- C10: the same normalization — case-insensitive `"bearer "` stripping
and whitespace trimming — is applied to every candidate before parsing,
whatever its source: each string handed to the external parser is the
normalized form of one of the collected query / header / cookie /
Authorization candidates. -/
theorem authenticate_parses_normalized (cfg : Config) (o : Oracle) (r : Request) :
    ∀ t ∈ authParsed cfg o r, ∃ c ∈ candidates cfg r, t = normToken c :=
  authLoop_parsed_mem cfg o (candidates cfg r) []

/-- Witness for `authenticate_parses_normalized`: a query-sourced value
`"Bearer abc"` is parsed as `"abc"`. -/
theorem authenticate_parses_normalized_witness :
    "abc".data ∈ authParsed demoCfg demoOracle bearerDemoReq
      ∧ ∃ c ∈ candidates demoCfg bearerDemoReq, "abc".data = normToken c :=
  ⟨by decide,
    authenticate_parses_normalized demoCfg demoOracle bearerDemoReq "abc".data
      (by decide)⟩
